import Mathlib

/-!
Shallow embedding of the OpenTTD savegame analyzer (src/analyzer/__main__.py).

Bytes are modelled as natural numbers (below 256 where it matters); byte
streams as `List Nat` holding the not-yet-consumed bytes of a file-like
object.  Fallible Python code (struct.unpack errors, raised exceptions) is
modelled in `Except Err`.  The `while` loops of `analyze_savegame` and
`ZLibFile.read` are modelled with an explicit iteration budget (`fuel`); the
top-level wrappers supply a budget derived from the stream length, which is
always sufficient because every loop iteration consumes at least one byte.
-/

/-- A byte stream: the not-yet-consumed bytes of a file-like object. -/
abbrev Bytes := List Nat

/-- The exceptions the analyzer can raise: struct.error on a short
fixed-width read (`truncation`), the "invalid encoding" error of
`read_gamma`, a UnicodeDecodeError in `read_str`, the
"garbage at end of file" error, the "Invalid chunk type" error, Python
KeyError/TypeError (for dict operations), and exhaustion of the loop
budget of the embedding. -/
inductive Err where
  | truncation
  | invalidGamma
  | invalidText
  | malformedTail
  | invalidChunkType (t : Nat)
  | keyError
  | typeError
  | outOfFuel
deriving DecidableEq

/-- Python `fp.read(n)` for `n ≥ 0`: returns up to `n` bytes, fewer when
the stream holds fewer. -/
def readB (n : Nat) (s : Bytes) : Bytes × Bytes := (s.take n, s.drop n)

/-- Python `fp.read(i)` where `i : int` may be negative: a plain file
object (`PlainFile`, magic OTTN) reads to end of file on a negative
amount. -/
def readInt (i : Int) (s : Bytes) : Bytes × Bytes :=
  if i < 0 then (s, []) else (s.take i.toNat, s.drop i.toNat)

/-- `read_uint8`: `struct.unpack(">B", fp.read(1))`; struct.error when no
byte remains. -/
def read_uint8 (s : Bytes) : Except Err (Nat × Bytes) :=
  match s with
  | b :: r => .ok (b, r)
  | [] => .error .truncation

/-- `read_uint16`: `struct.unpack(">H", fp.read(2))`, big-endian. -/
def read_uint16 (s : Bytes) : Except Err (Nat × Bytes) :=
  match s with
  | b0 :: b1 :: r => .ok (b0 <<< 8 ||| b1, r)
  | _ => .error .truncation

/-- `read_uint24`: `read_uint16(fp) << 8 | read_uint8(fp)`. -/
def read_uint24 (s : Bytes) : Except Err (Nat × Bytes) := do
  let (hi, s) ← read_uint16 s
  let (lo, s) ← read_uint8 s
  return (hi <<< 8 ||| lo, s)

/-- `read_uint32`: `struct.unpack(">I", fp.read(4))`, big-endian. -/
def read_uint32 (s : Bytes) : Except Err (Nat × Bytes) :=
  match s with
  | b0 :: b1 :: b2 :: b3 :: r => .ok (((b0 <<< 8 ||| b1) <<< 8 ||| b2) <<< 8 ||| b3, r)
  | _ => .error .truncation

/-- `read_gamma`: the variable-length integer decoder.  Returns the decoded
value, the number of bytes the encoding occupied (as the Python function
returns), and the rest of the stream. -/
def read_gamma (s : Bytes) : Except Err (Nat × Nat × Bytes) := do
  let (b, s1) ← read_uint8 s
  if b &&& 0x80 = 0 then
    return (b &&& 0x7F, 1, s1)
  else if b &&& 0xC0 = 0x80 then
    let (x, s2) ← read_uint8 s1
    return ((b &&& 0x3F) <<< 8 ||| x, 2, s2)
  else if b &&& 0xE0 = 0xC0 then
    let (x, s2) ← read_uint16 s1
    return ((b &&& 0x1F) <<< 16 ||| x, 3, s2)
  else if b &&& 0xF0 = 0xE0 then
    let (x, s2) ← read_uint24 s1
    return ((b &&& 0x0F) <<< 24 ||| x, 4, s2)
  else if b &&& 0xF8 = 0xF0 then
    let (x, s2) ← read_uint32 s1
    return ((b &&& 0x07) <<< 32 ||| x, 5, s2)
  else
    .error .invalidGamma

/-- Modelled from the spec: the gamma encoder.  The repository contains only
the decoder `read_gamma`; the spec defines the encoding by the bit-prefix
table of section 4.2, which this definition follows, for values up to the
five-byte maximum `2 ^ 35 - 1`. -/
def write_gamma (v : Nat) : Bytes :=
  if v < 0x80 then [v]
  else if v < 0x4000 then [0x80 ||| (v >>> 8), v &&& 0xFF]
  else if v < 0x200000 then [0xC0 ||| (v >>> 16), (v >>> 8) &&& 0xFF, v &&& 0xFF]
  else if v < 0x10000000 then
    [0xE0 ||| (v >>> 24), (v >>> 16) &&& 0xFF, (v >>> 8) &&& 0xFF, v &&& 0xFF]
  else
    [0xF0 ||| (v >>> 32), (v >>> 24) &&& 0xFF, (v >>> 16) &&& 0xFF, (v >>> 8) &&& 0xFF,
      v &&& 0xFF]

/-- Strict UTF-8 validity, as Python's `bytes.decode()` checks it:
continuation bytes in `0x80`–`0xBF`, no overlong forms, no surrogates,
nothing above `U+10FFFF`. -/
def utf8Valid : Bytes → Bool
  | [] => true
  | b :: r =>
    if b < 0x80 then utf8Valid r else
    match r with
    | c1 :: r1 =>
      if 0xC2 ≤ b && b ≤ 0xDF && (0x80 ≤ c1 && c1 ≤ 0xBF) then utf8Valid r1 else
      match r1 with
      | c2 :: r2 =>
        if ((b = 0xE0 && 0xA0 ≤ c1 && c1 ≤ 0xBF) ||
            ((0xE1 ≤ b && b ≤ 0xEC || b = 0xEE || b = 0xEF) && 0x80 ≤ c1 && c1 ≤ 0xBF) ||
            (b = 0xED && 0x80 ≤ c1 && c1 ≤ 0x9F)) && (0x80 ≤ c2 && c2 ≤ 0xBF) then
          utf8Valid r2
        else
        match r2 with
        | c3 :: r3 =>
          if ((b = 0xF0 && 0x90 ≤ c1 && c1 ≤ 0xBF) ||
              (0xF1 ≤ b && b ≤ 0xF3 && 0x80 ≤ c1 && c1 ≤ 0xBF) ||
              (b = 0xF4 && 0x80 ≤ c1 && c1 ≤ 0x8F)) &&
             (0x80 ≤ c2 && c2 ≤ 0xBF) && (0x80 ≤ c3 && c3 ≤ 0xBF) then
            utf8Valid r3
          else false
        | [] => false
      | [] => false
    | [] => false

/-- `read_str`: reads a gamma-encoded length, then that many bytes, and
decodes them as UTF-8 (the decoded characters are kept as their byte
sequence; the analyzer only ever tests the string for emptiness). -/
def read_str (s : Bytes) : Except Err (Bytes × Bytes) := do
  let (size, _, s1) ← read_gamma s
  let (bs, s2) := readB size s1
  if utf8Valid bs then .ok (bs, s2) else .error .invalidText

/-- A value stored in the per-file summary dict: Python int, str or bytes. -/
inductive Value where
  | int (n : Int)
  | text (t : String)
  | bytes (b : Bytes)
deriving DecidableEq

/-- The per-file summary record (`analysis`): a Python dict from string
keys to scalar values. -/
abbrev Analysis := String → Option Value

/-- Python dict assignment `a[k] = v`. -/
def dictSet (a : Analysis) (k : String) (v : Value) : Analysis :=
  fun k' => if k' = k then some v else a k'

/-- Python `k in a`. -/
def dictHas (a : Analysis) (k : String) : Bool := (a k).isSome

/-- Python `a[k] += 1`: KeyError when the key is absent, TypeError when
the stored value is not an int. -/
def dictIncr (a : Analysis) (k : String) : Except Err Analysis :=
  match a k with
  | some (Value.int n) => .ok (dictSet a k (Value.int (n + 1)))
  | some _ => .error .typeError
  | none => .error .keyError

/-- The summary record `main` builds before analyzing the chunk stream:
`filename` (the last `/`-separated component), `savegame-version`, and
`compression`. -/
def initAnalysis (filename : String) (savegameVersion : Nat) (format : Bytes) : Analysis :=
  dictSet
    (dictSet
      (dictSet (fun _ => none) "filename" (Value.text ((filename.splitOn "/").getLastD "")))
      "savegame-version" (Value.int savegameVersion))
    "compression" (Value.bytes format)

/-- The 4-byte tag b"MAPS". -/
def tagMAPS : Bytes := [0x4D, 0x41, 0x50, 0x53]

/-- The 4-byte tag b"NGRF". -/
def tagNGRF : Bytes := [0x4E, 0x47, 0x52, 0x46]

/-- The 4-byte tag b"AIPL". -/
def tagAIPL : Bytes := [0x41, 0x49, 0x50, 0x4C]

/-- The 4-byte tag b"GSDT". -/
def tagGSDT : Bytes := [0x47, 0x53, 0x44, 0x54]

/-- `analyze_chunk(tag, index, data, analysis)`: the field extractor.  The
`index` argument is accepted and ignored, as in the source.  Each handled
tag reads from a fresh `BytesIO(data)`; at most one of the four `if`
branches can fire because the tags are distinct. -/
def analyze_chunk (tag : Bytes) (index : Int) (data : Bytes) (analysis : Analysis) :
    Except Err Analysis := do
  let _ := index
  let a ←
    if tag = tagMAPS then do
      let (w, s1) ← read_uint32 data
      let (h, _) ← read_uint32 s1
      pure (dictSet analysis "map-size" (Value.text (toString w ++ "x" ++ toString h)))
    else pure analysis
  let a ←
    if tag = tagNGRF then
      let a := if ¬ dictHas a "newgrf" then dictSet a "newgrf-count" (Value.int 0) else a
      dictIncr a "newgrf-count"
    else pure a
  let a ←
    if tag = tagAIPL then do
      let (name, _) ← read_str data
      if name ≠ [] then
        let a := if ¬ dictHas a "ai" then dictSet a "ai-count" (Value.int 0) else a
        dictIncr a "ai-count"
      else pure a
    else pure a
  let a ←
    if tag = tagGSDT then do
      let (name, _) ← read_str data
      if name ≠ [] then
        let a := if ¬ dictHas a "gs" then dictSet a "gs-count" (Value.int 0) else a
        dictIncr a "gs-count"
      else pure a
    else pure a
  return a

/-- One iteration of the inner record loop of `analyze_savegame` (chunk
types 1 and 2): read the length gamma; on value 0 the chunk ends
(`none`); otherwise for type 2 read the index gamma and subtract its byte
count from the size, for type 1 advance the running index; then read the
payload (`fp.read` receives the possibly negative size).  Returns the
(index, payload) of the emitted record and the rest of the stream. -/
def record_step (typ : Nat) (index : Int) (s : Bytes) :
    Except Err (Option (Int × Bytes) × Bytes) := do
  let (g, _, s1) ← read_gamma s
  let size : Int := (g : Int) - 1
  if size < 0 then
    return (none, s1)
  else if typ = 2 then do
    let (idx, isize, s2) ← read_gamma s1
    let size := size - (isize : Int)
    let (data, s3) := readInt size s2
    return (some ((idx : Int), data), s3)
  else
    let (data, s2) := readInt size s1
    return (some (index + 1, data), s2)

/-- The inner record loop of `analyze_savegame`, emission view: the list
of `(index, payload)` records of one array / sparse-array chunk body, and
the stream after it. -/
def chunk_records (fuel : Nat) (typ : Nat) (index : Int) (s : Bytes) :
    Except Err (List (Int × Bytes) × Bytes) :=
  match fuel with
  | 0 => .error .outOfFuel
  | fuel + 1 => do
    let (r, s1) ← record_step typ index s
    match r with
    | none => return ([], s1)
    | some (idx, data) => do
      let (items, s2) ← chunk_records fuel typ idx s1
      return ((idx, data) :: items, s2)

/-- The inner record loop of `analyze_savegame`, extraction view: folds
`analyze_chunk` over the records of one array / sparse-array chunk body. -/
def analyze_records (fuel : Nat) (tag : Bytes) (typ : Nat) (index : Int) (s : Bytes)
    (analysis : Analysis) : Except Err (Analysis × Bytes) :=
  match fuel with
  | 0 => .error .outOfFuel
  | fuel + 1 => do
    let (r, s1) ← record_step typ index s
    match r with
    | none => return (analysis, s1)
    | some (idx, data) => do
      let a ← analyze_chunk tag idx data analysis
      analyze_records fuel tag typ idx s1 a

/-- The outer chunk loop of `analyze_savegame`, emission view (the chunk
iterator): the list of `(tag, index, payload)` items the loop passes to
`analyze_chunk`.  One `fuel` unit per chunk. -/
def chunk_items_loop (fuel : Nat) (s : Bytes) :
    Except Err (List (Bytes × Int × Bytes)) :=
  match fuel with
  | 0 => .error .outOfFuel
  | fuel + 1 =>
    let (tag, s1) := readB 4 s
    if tag.length = 0 ∨ tag = [0, 0, 0, 0] then .ok []
    else if tag.length ≠ 4 then .error .malformedTail
    else do
      let (typ, s2) ← read_uint8 s1
      if typ &&& 0x0F = 0 then do
        let (u24, s3) ← read_uint24 s2
        let size := typ <<< 20 ||| u24
        let (data, s4) := readB size s3
        let items ← chunk_items_loop fuel s4
        return (tag, -1, data) :: items
      else if typ = 1 ∨ typ = 2 then do
        let (recs, s3) ← chunk_records (s2.length + 1) typ (-1) s2
        let items ← chunk_items_loop fuel s3
        return recs.map (fun r => (tag, r.1, r.2)) ++ items
      else .error (.invalidChunkType typ)

/-- The chunk iterator over a whole decompressed stream. -/
def chunk_items (s : Bytes) : Except Err (List (Bytes × Int × Bytes)) :=
  chunk_items_loop (s.length + 1) s

/-- The outer chunk loop of `analyze_savegame`, extraction view. -/
def analyze_savegame_loop (fuel : Nat) (s : Bytes) (analysis : Analysis) :
    Except Err Analysis :=
  match fuel with
  | 0 => .error .outOfFuel
  | fuel + 1 =>
    let (tag, s1) := readB 4 s
    if tag.length = 0 ∨ tag = [0, 0, 0, 0] then .ok analysis
    else if tag.length ≠ 4 then .error .malformedTail
    else do
      let (typ, s2) ← read_uint8 s1
      if typ &&& 0x0F = 0 then do
        let (u24, s3) ← read_uint24 s2
        let size := typ <<< 20 ||| u24
        let (data, s4) := readB size s3
        let a ← analyze_chunk tag (-1) data analysis
        analyze_savegame_loop fuel s4 a
      else if typ = 1 ∨ typ = 2 then do
        let (a, s3) ← analyze_records (s2.length + 1) tag typ (-1) s2 analysis
        analyze_savegame_loop fuel s3 a
      else .error (.invalidChunkType typ)

/-- `analyze_savegame(fp, analysis)` over a whole decompressed stream. -/
def analyze_savegame (s : Bytes) (analysis : Analysis) : Except Err Analysis :=
  analyze_savegame_loop (s.length + 1) s analysis

/-- The state of a `ZLibFile` (the OTTZ decompression adapter): the
remaining raw compressed bytes of the underlying file, the raw bytes
already fed to the decompressor object, and the internal buffer of
decompressed but not yet delivered bytes. -/
structure ZLibFile where
  file : Bytes
  fed : Bytes
  uncompressed : Bytes
deriving DecidableEq

/-- `ZLibFile` as freshly opened on a raw source. -/
def ZLibFile.init (raw : Bytes) : ZLibFile := ⟨raw, [], []⟩

/-- The `while` loop of `ZLibFile.read`: while the buffer holds fewer than
`amount` bytes, pull the next 8 KiB raw chunk and append what the
decompressor emits for it; stop when the raw source is exhausted.  The
decompressor object is abstracted by `dec`, mapping the total raw input
fed so far to the total output emitted so far; one feed emits the
difference. -/
def zlib_fill (dec : Bytes → Bytes) : Nat → Nat → ZLibFile → ZLibFile
  | 0, _, z => z
  | fuel + 1, amount, z =>
    if z.uncompressed.length < amount then
      let new_data := z.file.take 8192
      if new_data.length = 0 then z
      else
        zlib_fill dec fuel amount
          { file := z.file.drop 8192,
            fed := z.fed ++ new_data,
            uncompressed := z.uncompressed ++ (dec (z.fed ++ new_data)).drop (dec z.fed).length }
    else z

/-- `ZLibFile.read(amount)`: fill the buffer, return its first `amount`
bytes and retain the rest. -/
def ZLibFile.read (dec : Bytes → Bytes) (z : ZLibFile) (amount : Nat) : Bytes × ZLibFile :=
  let z' := zlib_fill dec (z.file.length + 1) amount z
  (z'.uncompressed.take amount,
    { z' with uncompressed := z'.uncompressed.drop amount })

/-- A sequence of `read(n)` calls against a `ZLibFile`, returning the list
of delivered slices. -/
def ZLibFile.reads (dec : Bytes → Bytes) (z : ZLibFile) : List Nat → List Bytes × ZLibFile
  | [] => ([], z)
  | n :: ns =>
    let (d, z1) := ZLibFile.read dec z n
    let (ds, z2) := ZLibFile.reads dec z1 ns
    (d :: ds, z2)

/-- The invariant tying a `ZLibFile` to its raw source `raw` and the bytes
`delivered` so far: the fed and remaining raw bytes partition the source,
and delivered bytes followed by the buffer are exactly the decompressor's
output for the fed bytes. -/
def ZGood (dec : Bytes → Bytes) (raw delivered : Bytes) (z : ZLibFile) : Prop :=
  z.fed ++ z.file = raw ∧ delivered ++ z.uncompressed = dec z.fed

/-! Helper lemmas. -/

theorem except_ok_bind {α β : Type} (a : α) (f : α → Except Err β) :
    (Except.ok a >>= f) = f a := rfl

theorem except_error_bind {α β : Type} (e : Err) (f : α → Except Err β) :
    ((Except.error e : Except Err α) >>= f) = .error e := rfl

theorem except_pure_def {α : Type} (a : α) : (pure a : Except Err α) = .ok a := rfl

theorem readB_exact (pre rest : Bytes) (n : Nat) (h : pre.length = n) :
    readB n (pre ++ rest) = (pre, rest) := by
  subst h
  simp [readB]

instance {e a : Type} [DecidableEq e] [DecidableEq a] : DecidableEq (Except e a) := fun x y =>
  match x, y with
  | .ok u, .ok v =>
    if h : u = v then .isTrue (by rw [h]) else .isFalse (by simp [h])
  | .error u, .error v =>
    if h : u = v then .isTrue (by rw [h]) else .isFalse (by simp [h])
  | .ok _, .error _ => .isFalse (by simp)
  | .error _, .ok _ => .isFalse (by simp)

/-! Theorems settling the claims. -/

/-- C1, counterexample: the claim says a header byte whose low 4 bits are 1
is parsed as an array layout regardless of the high 4 bits.  On the stream
with tag "AAAA" and header byte `0x11` (low nibble 1, high nibble 1) the
parse instead fails with the invalid-chunk-type error, because the code
tests the whole byte (`type in (1, 2)`), not the low nibble. -/
theorem C1_counterexample :
    chunk_items [65, 65, 65, 65, 0x11, 0] = .error (.invalidChunkType 17) := by
  decide

/-- C2, evaluation at the failing input: a stream containing exactly two
NGRF chunks (two zero-size block chunks tagged "NGRF") ends with
`newgrf-count = 1`, not 2: the initialization guard tests the key
"newgrf", which is never inserted, so the counter is reset to 0 at every
occurrence before being incremented. -/
theorem C2_newgrf_count_reset :
    Except.map (fun a => a "newgrf-count")
      (analyze_savegame
        ([78, 71, 82, 70, 0, 0, 0, 0] ++ [78, 71, 82, 70, 0, 0, 0, 0])
        (initAnalysis "savegames/test.sav" 5 [79, 84, 84, 78])) =
      .ok (some (Value.int 1)) := by
  decide

/-- C3, counterexample: the claim says a chunk declaring a payload length
larger than the remaining bytes makes decoding fail with a truncation
error and produce no summary record.  On a stream whose single block chunk
(tag "XXXX") declares size 5 with only 2 payload bytes remaining,
decoding instead completes successfully with the summary record: the
short `fp.read(size)` is not checked. -/
theorem C3_counterexample :
    analyze_savegame [88, 88, 88, 88, 0, 0, 0, 5, 1, 2]
      (initAnalysis "t.sav" 1 [79, 84, 84, 78]) =
      .ok (initAnalysis "t.sav" 1 [79, 84, 84, 78]) := rfl

/-- C10: a sparse-array record whose length gamma is 1 (so size becomes 0)
followed by a one-byte index gamma gives the computed payload size
`1 - 1 - 1 = -1 < 0`; the record loop raises no error, passes the
negative size to the stream's `read` (which, on a plain file, returns
all remaining bytes), and emits the record instead of rejecting it. -/
theorem C10_negative_sparse_size :
    record_step 2 (-1) [1, 5, 99, 98] = .ok (some (5, [99, 98]), []) ∧
    readInt (-1) [99, 98] = ([99, 98], []) ∧ ((1 : Int) - 1 - 1 < 0) := by
  decide

theorem except_bind_id {α : Type} (m : Except Err α) :
    (m >>= fun a => Except.ok a) = m := by
  cases m <;> rfl

theorem except_bind_ok_comp {α β : Type} (m : Except Err α) (f : α → β) :
    (m >>= fun a => Except.ok (f a)) = Except.map f m := by
  cases m <;> rfl

/-- C8: at a chunk boundary, clean end of input or a 4-byte all-zero tag
terminates the chunk stream without error (any bytes after the zero tag
are not examined; the whole-stream case gives zero chunks), while 1-3
bytes where a tag is expected fail with the "garbage at end of file"
(malformed tail) error. -/
theorem C8_stream_termination :
    (∀ fuel, chunk_items_loop (fuel + 1) [] = .ok []) ∧
    (∀ fuel rest, chunk_items_loop (fuel + 1) ([0, 0, 0, 0] ++ rest) = .ok []) ∧
    (chunk_items [0, 0, 0, 0] = .ok []) ∧
    (∀ fuel s, 1 ≤ s.length → s.length ≤ 3 →
      chunk_items_loop (fuel + 1) s = .error .malformedTail) := by
  refine ⟨?_, ?_, by decide, ?_⟩
  · intro fuel
    simp [chunk_items_loop, readB]
  · intro fuel rest
    simp [chunk_items_loop, readB]
  · intro fuel s h1 h3
    match s with
    | [] => simp at h1
    | [a] => simp [chunk_items_loop, readB]
    | [a, b] => simp [chunk_items_loop, readB]
    | [a, b, c] => simp [chunk_items_loop, readB]
    | a :: b :: c :: d :: t => simp at h3

/-- C8 witness: the general parts at concrete inputs. -/
theorem C8_stream_termination_witness :
    chunk_items_loop 3 [] = .ok [] ∧
    chunk_items_loop 3 [0, 0, 0, 0, 9] = .ok [] ∧
    chunk_items_loop 3 [7, 7] = .error .malformedTail := by
  refine ⟨C8_stream_termination.1 2, ?_, C8_stream_termination.2.2.2 2 [7, 7] (by decide) (by decide)⟩
  exact C8_stream_termination.2.1 2 [9]

set_option maxRecDepth 4000 in
theorem shift20_eq_shift24 : ∀ t, t < 256 → t &&& 15 = 0 → t <<< 20 = (t >>> 4) <<< 24 := by
  decide

/-- C1, amended: the low nibble selects the block layout (low nibble 0,
any high nibble), but the array and sparse-array layouts are selected
only by the exact header byte values 1 and 2; any other header byte —
including one whose low nibble is 1 or 2 with a nonzero high nibble —
makes the whole parse fail with the invalid-chunk-type error. -/
theorem C1_chunk_type_dispatch :
    (∀ fuel (tag : Bytes) t rest, tag.length = 4 → tag ≠ [0, 0, 0, 0] →
      t &&& 0x0F ≠ 0 → t ≠ 1 → t ≠ 2 →
      chunk_items_loop (fuel + 1) (tag ++ t :: rest) = .error (.invalidChunkType t)) ∧
    (∀ fuel (tag : Bytes) rest, tag.length = 4 → tag ≠ [0, 0, 0, 0] →
      chunk_items_loop (fuel + 1) (tag ++ 1 :: 0 :: rest) = chunk_items_loop fuel rest) ∧
    (∀ fuel (tag : Bytes) rest, tag.length = 4 → tag ≠ [0, 0, 0, 0] →
      chunk_items_loop (fuel + 1) (tag ++ 2 :: 0 :: rest) = chunk_items_loop fuel rest) ∧
    (∀ fuel (tag : Bytes) t rest, tag.length = 4 → tag ≠ [0, 0, 0, 0] → t &&& 0x0F = 0 →
      chunk_items_loop (fuel + 1) (tag ++ t :: 0 :: 0 :: 0 :: rest) =
        Except.map (fun items => (tag, -1, rest.take (t <<< 20)) :: items)
          (chunk_items_loop fuel (rest.drop (t <<< 20)))) := by
  refine ⟨?_, ?_, ?_, ?_⟩
  · intro fuel tag t rest h4 hz hn h1 h2
    simp only [chunk_items_loop]
    rw [readB_exact tag (t :: rest) 4 h4]
    simp [h4, hz, hn, h1, h2, read_uint8, except_ok_bind]
  · intro fuel tag rest h4 hz
    simp only [chunk_items_loop]
    rw [readB_exact tag (1 :: 0 :: rest) 4 h4]
    simp [h4, hz, read_uint8, chunk_records, record_step, read_gamma, except_bind_id,
      except_ok_bind, except_pure_def]
  · intro fuel tag rest h4 hz
    simp only [chunk_items_loop]
    rw [readB_exact tag (2 :: 0 :: rest) 4 h4]
    simp [h4, hz, read_uint8, chunk_records, record_step, read_gamma, except_bind_id,
      except_ok_bind, except_pure_def]
  · intro fuel tag t rest h4 hz hn
    simp only [chunk_items_loop]
    rw [readB_exact tag (t :: 0 :: 0 :: 0 :: rest) 4 h4]
    simp [h4, hz, hn, read_uint8, read_uint24, read_uint16, readB, except_ok_bind,
      except_pure_def]
    rw [except_bind_ok_comp]

/-- C1 witness: the amended dispatch at concrete inputs, among them the
header byte 0x21 (low nibble 1, high nibble 2) which is rejected. -/
theorem C1_chunk_type_dispatch_witness :
    chunk_items_loop 1 [65, 65, 65, 65, 0x21, 0] = .error (.invalidChunkType 0x21) ∧
    chunk_items_loop 2 [65, 65, 65, 65, 1, 0] = chunk_items_loop 1 [] ∧
    chunk_items_loop 2 [65, 65, 65, 65, 2, 0] = chunk_items_loop 1 [] ∧
    chunk_items_loop 2 [65, 65, 65, 65, 0x10, 0, 0, 0] =
      Except.map (fun items => (([65, 65, 65, 65] : Bytes), (-1 : Int), ([] : Bytes).take (0x10 <<< 20)) :: items)
        (chunk_items_loop 1 (([] : Bytes).drop (0x10 <<< 20))) := by
  refine ⟨?_, ?_, ?_, ?_⟩
  · exact C1_chunk_type_dispatch.1 0 [65, 65, 65, 65] 0x21 [0] (by decide) (by decide)
      (by decide) (by decide) (by decide)
  · exact C1_chunk_type_dispatch.2.1 1 [65, 65, 65, 65] [] (by decide) (by decide)
  · exact C1_chunk_type_dispatch.2.2.1 1 [65, 65, 65, 65] [] (by decide) (by decide)
  · exact C1_chunk_type_dispatch.2.2.2 1 [65, 65, 65, 65] 0x10 [] (by decide) (by decide)
      (by decide)

theorem analyze_loop_nil (fuel : Nat) (a : Analysis) :
    analyze_savegame_loop (fuel + 1) [] a = .ok a := by
  simp [analyze_savegame_loop, readB]

/-- C3, amended: a block chunk declaring a payload length larger than the
bytes remaining in the stream does not abort with a truncation error;
`fp.read(size)` silently returns the short remainder, the chunk handler
runs on it, and decoding then terminates at the exhausted stream (only
fixed-width reads raise truncation errors). -/
theorem C3_short_payload :
    ∀ fuel (a : Analysis) (tag : Bytes) t b0 b1 b2 (rest : Bytes),
      tag.length = 4 → tag ≠ [0, 0, 0, 0] → t &&& 0x0F = 0 →
      rest.length < t <<< 20 ||| ((b0 <<< 8 ||| b1) <<< 8 ||| b2) →
      analyze_savegame_loop (fuel + 2) (tag ++ t :: b0 :: b1 :: b2 :: rest) a =
        analyze_chunk tag (-1) rest a := by
  intro fuel a tag t b0 b1 b2 rest h4 hz hn hlen
  rw [analyze_savegame_loop]
  rw [readB_exact tag (t :: b0 :: b1 :: b2 :: rest) 4 h4]
  simp only [read_uint8, read_uint24, read_uint16, except_ok_bind, except_pure_def, readB]
  rw [List.take_of_length_le (Nat.le_of_lt hlen), List.drop_eq_nil_of_le (Nat.le_of_lt hlen)]
  simp [h4, hz, hn, analyze_loop_nil, except_bind_id, except_ok_bind]

/-- C3 witness: a block chunk with tag "XYZW" declaring 100 payload bytes
over a 1-byte remainder is handed that single byte and decoding completes. -/
theorem C3_short_payload_witness :
    analyze_savegame_loop 3 [88, 89, 90, 87, 0, 0, 0, 100, 42] (fun _ => none) =
      analyze_chunk [88, 89, 90, 87] (-1) [42] (fun _ => none) := by
  exact C3_short_payload 1 (fun _ => none) [88, 89, 90, 87] 0 0 0 100 [42] (by decide)
    (by decide) (by decide) (by decide)

/-- C5: a block chunk (header byte with low nibble 0) reads its payload
size as `(header_byte >>> 4) <<< 24 ||| uint24` (a 28-bit big-endian
size), consumes exactly that many payload bytes, and produces exactly one
item `(tag, -1, payload)` for the chunk before the loop continues at the
following chunk boundary. -/
theorem C5_block_chunk :
    ∀ fuel (tag : Bytes) t b0 b1 b2 (payload rest : Bytes),
      tag.length = 4 → tag ≠ [0, 0, 0, 0] → t < 256 → t &&& 0x0F = 0 →
      payload.length = (t >>> 4) <<< 24 ||| ((b0 <<< 8 ||| b1) <<< 8 ||| b2) →
      chunk_items_loop (fuel + 1) (tag ++ t :: b0 :: b1 :: b2 :: (payload ++ rest)) =
        Except.map (fun items => (tag, -1, payload) :: items) (chunk_items_loop fuel rest) := by
  intro fuel tag t b0 b1 b2 payload rest h4 hz hb hn hlen
  have hsize : t <<< 20 ||| ((b0 <<< 8 ||| b1) <<< 8 ||| b2) = payload.length := by
    rw [hlen, shift20_eq_shift24 t hb hn]
  rw [chunk_items_loop]
  rw [readB_exact tag (t :: b0 :: b1 :: b2 :: (payload ++ rest)) 4 h4]
  simp only [read_uint8, read_uint24, read_uint16, except_ok_bind, except_pure_def, readB]
  rw [hsize, List.take_left, List.drop_left]
  simp [h4, hz, hn, except_ok_bind, except_pure_def]
  rw [except_bind_ok_comp]

/-- C5 witness: a block chunk with header byte 0x10 and size bytes
0,0,2 declares size `1 <<< 24 ||| 2`; instantiated with a payload of that
length made of zeros, exactly one item holding it is produced. -/
theorem C5_block_chunk_witness :
    chunk_items_loop 2
        ([66, 76, 75, 67] ++ 0x10 :: 0 :: 0 :: 2 :: (List.replicate (0x1000002) 0 ++ [0, 0, 0, 0])) =
      Except.map (fun items => (([66, 76, 75, 67] : Bytes), (-1 : Int), List.replicate (0x1000002) 0) :: items)
        (chunk_items_loop 1 [0, 0, 0, 0]) := by
  exact C5_block_chunk 1 [66, 76, 75, 67] 0x10 0 0 2 (List.replicate 0x1000002 0) [0, 0, 0, 0]
    (by decide) (by decide) (by decide) (by decide)
    (by rw [List.length_replicate]; decide)

/-- C6: in a sparse-array body the length gamma is decoded first; value 0
ends the chunk; otherwise a second gamma gives the record's explicit
index, the payload length is `(length gamma - 1)` minus the byte count of
the index gamma, and the record is emitted under that explicit index
(independent of the running arrival-order index `i`). -/
theorem C6_sparse_records :
    (∀ (i : Int) (s : Bytes) c s1, read_gamma s = .ok (0, c, s1) →
      record_step 2 i s = .ok (none, s1)) ∧
    (∀ (i : Int) (s : Bytes) g gc s1 idx ic s2, read_gamma s = .ok (g, gc, s1) → 0 < g →
      read_gamma s1 = .ok (idx, ic, s2) → ic ≤ g - 1 → g - 1 - ic ≤ s2.length →
      record_step 2 i s =
        .ok (some ((idx : Int), s2.take (g - 1 - ic)), s2.drop (g - 1 - ic)) ∧
      (s2.take (g - 1 - ic)).length = g - 1 - ic) := by
  constructor
  · intro i s c s1 h
    simp [record_step, h, except_ok_bind, except_pure_def]
  · intro i s g gc s1 idx ic s2 h1 hg h2 hic hlen
    have hnneg : ¬ ((g : Int) - 1 < 0) := by omega
    have hsz : ¬ ((g : Int) - 1 - (ic : Int) < 0) := by omega
    have htn : ((g : Int) - 1 - (ic : Int)).toNat = g - 1 - ic := by omega
    have hgne : ¬ (g = 0) := by omega
    have hlt : ¬ ((g : Int) - 1 < (ic : Int)) := by omega
    constructor
    · simp [record_step, h1, h2, except_ok_bind, except_pure_def, readInt, hnneg, hsz, htn,
        hgne, hlt]
    · rw [List.length_take]
      omega

/-- C6 witness: a sparse record with length gamma 3 and one-byte index
gamma 7 carries a `3 - 1 - 1 = 1`-byte payload and is emitted at index 7;
a length gamma of 0 ends the chunk. -/
theorem C6_sparse_records_witness :
    record_step 2 (-1) [0, 9] = .ok (none, [9]) ∧
    (record_step 2 (-1) [3, 7, 42, 43] =
        .ok (some ((7 : Int), ([42, 43] : Bytes).take (3 - 1 - 1)), ([42, 43] : Bytes).drop (3 - 1 - 1)) ∧
      (([42, 43] : Bytes).take (3 - 1 - 1)).length = 3 - 1 - 1) := by
  constructor
  · exact C6_sparse_records.1 (-1) [0, 9] 1 [9] (by decide)
  · exact C6_sparse_records.2 (-1) [3, 7, 42, 43] 3 1 [7, 42, 43] 7 1 [42, 43]
      (by decide) (by decide) (by decide) (by decide) (by decide)

set_option maxRecDepth 8000 in
theorem gamma_excl_2 : ∀ b, b < 256 → (b &&& 0xC0 = 0x80 → ¬(b &&& 0x80 = 0)) := by
  decide

set_option maxRecDepth 8000 in
theorem gamma_excl_3 : ∀ b, b < 256 → (b &&& 0xE0 = 0xC0 →
    ¬(b &&& 0x80 = 0) ∧ ¬(b &&& 0xC0 = 0x80)) := by
  decide

set_option maxRecDepth 8000 in
theorem gamma_excl_4 : ∀ b, b < 256 → (b &&& 0xF0 = 0xE0 →
    ¬(b &&& 0x80 = 0) ∧ ¬(b &&& 0xC0 = 0x80) ∧ ¬(b &&& 0xE0 = 0xC0)) := by
  decide

set_option maxRecDepth 8000 in
theorem gamma_excl_5 : ∀ b, b < 256 → (b &&& 0xF8 = 0xF0 →
    ¬(b &&& 0x80 = 0) ∧ ¬(b &&& 0xC0 = 0x80) ∧ ¬(b &&& 0xE0 = 0xC0) ∧
    ¬(b &&& 0xF0 = 0xE0)) := by
  decide

set_option maxRecDepth 8000 in
theorem gamma_excl_inv : ∀ b, b < 256 → (0xF8 ≤ b →
    ¬(b &&& 0x80 = 0) ∧ ¬(b &&& 0xC0 = 0x80) ∧ ¬(b &&& 0xE0 = 0xC0) ∧
    ¬(b &&& 0xF0 = 0xE0) ∧ ¬(b &&& 0xF8 = 0xF0)) := by
  decide

/-- C4: the gamma decoder follows the five-row bit-prefix table exactly
(value formula and byte count per row), every first byte in 0xF8-0xFF
fails with the invalid-encoding error, and decoding is a left inverse of
the spec's encoder at all boundary values 0, 127, 128, 16383, 16384,
2097151, 2097152, 268435455, 268435456 and the five-byte maximum
2^35 - 1. -/
theorem C4_gamma_table :
    (∀ b (rest : Bytes), b &&& 0x80 = 0 →
      read_gamma (b :: rest) = .ok (b &&& 0x7F, 1, rest)) ∧
    (∀ b c (rest : Bytes), b < 256 → b &&& 0xC0 = 0x80 →
      read_gamma (b :: c :: rest) = .ok ((b &&& 0x3F) <<< 8 ||| c, 2, rest)) ∧
    (∀ b c0 c1 (rest : Bytes), b < 256 → b &&& 0xE0 = 0xC0 →
      read_gamma (b :: c0 :: c1 :: rest) = .ok ((b &&& 0x1F) <<< 16 ||| (c0 <<< 8 ||| c1), 3, rest)) ∧
    (∀ b c0 c1 c2 (rest : Bytes), b < 256 → b &&& 0xF0 = 0xE0 →
      read_gamma (b :: c0 :: c1 :: c2 :: rest) =
        .ok ((b &&& 0x0F) <<< 24 ||| ((c0 <<< 8 ||| c1) <<< 8 ||| c2), 4, rest)) ∧
    (∀ b c0 c1 c2 c3 (rest : Bytes), b < 256 → b &&& 0xF8 = 0xF0 →
      read_gamma (b :: c0 :: c1 :: c2 :: c3 :: rest) =
        .ok ((b &&& 0x07) <<< 32 ||| (((c0 <<< 8 ||| c1) <<< 8 ||| c2) <<< 8 ||| c3), 5, rest)) ∧
    (∀ b (rest : Bytes), 0xF8 ≤ b → b ≤ 0xFF →
      read_gamma (b :: rest) = .error .invalidGamma) ∧
    (∀ rest : Bytes,
      read_gamma (write_gamma 0 ++ rest) = .ok (0, 1, rest) ∧
      read_gamma (write_gamma 127 ++ rest) = .ok (127, 1, rest) ∧
      read_gamma (write_gamma 128 ++ rest) = .ok (128, 2, rest) ∧
      read_gamma (write_gamma 16383 ++ rest) = .ok (16383, 2, rest) ∧
      read_gamma (write_gamma 16384 ++ rest) = .ok (16384, 3, rest) ∧
      read_gamma (write_gamma 2097151 ++ rest) = .ok (2097151, 3, rest) ∧
      read_gamma (write_gamma 2097152 ++ rest) = .ok (2097152, 4, rest) ∧
      read_gamma (write_gamma 268435455 ++ rest) = .ok (268435455, 4, rest) ∧
      read_gamma (write_gamma 268435456 ++ rest) = .ok (268435456, 5, rest) ∧
      read_gamma (write_gamma 34359738367 ++ rest) = .ok (34359738367, 5, rest)) := by
  refine ⟨?_, ?_, ?_, ?_, ?_, ?_, ?_⟩
  · intro b rest h
    simp [read_gamma, read_uint8, h, except_ok_bind, except_pure_def]
  · intro b c rest hb h
    have e := gamma_excl_2 b hb h
    simp [read_gamma, read_uint8, h, e, except_ok_bind, except_pure_def]
  · intro b c0 c1 rest hb h
    obtain ⟨e1, e2⟩ := gamma_excl_3 b hb h
    simp [read_gamma, read_uint8, read_uint16, h, e1, e2, except_ok_bind, except_pure_def]
  · intro b c0 c1 c2 rest hb h
    obtain ⟨e1, e2, e3⟩ := gamma_excl_4 b hb h
    simp [read_gamma, read_uint8, read_uint16, read_uint24, h, e1, e2, e3, except_ok_bind,
      except_pure_def]
  · intro b c0 c1 c2 c3 rest hb h
    obtain ⟨e1, e2, e3, e4⟩ := gamma_excl_5 b hb h
    simp [read_gamma, read_uint8, read_uint16, read_uint24, read_uint32, h, e1, e2, e3, e4,
      except_ok_bind, except_pure_def]
  · intro b rest hlo hhi
    obtain ⟨e1, e2, e3, e4, e5⟩ := gamma_excl_inv b (by omega) hlo
    simp [read_gamma, read_uint8, e1, e2, e3, e4, e5, except_ok_bind, except_pure_def]
  · intro rest
    exact ⟨rfl, rfl, rfl, rfl, rfl, rfl, rfl, rfl, rfl, rfl⟩

/-- C4 witness: the table rows, the failure range and one round trip at
concrete inputs. -/
theorem C4_gamma_table_witness :
    read_gamma [0x05, 9] = .ok (0x05 &&& 0x7F, 1, [9]) ∧
    read_gamma [0x81, 0x02, 9] = .ok ((0x81 &&& 0x3F) <<< 8 ||| 0x02, 2, [9]) ∧
    read_gamma [0xC1, 0x02, 0x03, 9] =
      .ok ((0xC1 &&& 0x1F) <<< 16 ||| (0x02 <<< 8 ||| 0x03), 3, [9]) ∧
    read_gamma [0xE1, 0x02, 0x03, 0x04, 9] =
      .ok ((0xE1 &&& 0x0F) <<< 24 ||| ((0x02 <<< 8 ||| 0x03) <<< 8 ||| 0x04), 4, [9]) ∧
    read_gamma [0xF1, 0x02, 0x03, 0x04, 0x05, 9] =
      .ok ((0xF1 &&& 0x07) <<< 32 ||| (((0x02 <<< 8 ||| 0x03) <<< 8 ||| 0x04) <<< 8 ||| 0x05), 5, [9]) ∧
    read_gamma [0xF8, 1, 2, 3, 4] = .error .invalidGamma ∧
    read_gamma (write_gamma 16384 ++ [9]) = .ok (16384, 3, [9]) := by
  refine ⟨?_, ?_, ?_, ?_, ?_, ?_, ?_⟩
  · exact C4_gamma_table.1 0x05 [9] (by decide)
  · exact C4_gamma_table.2.1 0x81 0x02 [9] (by decide) (by decide)
  · exact C4_gamma_table.2.2.1 0xC1 0x02 0x03 [9] (by decide) (by decide)
  · exact C4_gamma_table.2.2.2.1 0xE1 0x02 0x03 0x04 [9] (by decide) (by decide)
  · exact C4_gamma_table.2.2.2.2.1 0xF1 0x02 0x03 0x04 0x05 [9] (by decide) (by decide)
  · exact C4_gamma_table.2.2.2.2.2.1 0xF8 [1, 2, 3, 4] (by decide) (by decide)
  · exact (C4_gamma_table.2.2.2.2.2.2 [9]).2.2.2.2.1

theorem dictSet_get_ne (a : Analysis) (k : String) (v : Value) (k' : String) (h : k' ≠ k) :
    dictSet a k v k' = a k' := by
  simp [dictSet, h]

theorem dictIncr_get_ne (a a' : Analysis) (k k' : String) (h : dictIncr a k = .ok a')
    (hne : k' ≠ k) : a' k' = a k' := by
  unfold dictIncr at h
  cases hv : a k with
  | none => rw [hv] at h; exact absurd h (by simp)
  | some v =>
    cases v with
    | int n =>
      rw [hv] at h
      simp only [Except.ok.injEq] at h
      rw [← h]
      exact dictSet_get_ne a k (Value.int (n + 1)) k' hne
    | text t => rw [hv] at h; exact absurd h (by simp)
    | bytes b => rw [hv] at h; exact absurd h (by simp)

theorem analyze_chunk_preserves :
    ∀ (tag : Bytes) (i : Int) (data : Bytes) (a a' : Analysis),
      analyze_chunk tag i data a = .ok a' →
      ∀ k', k' ≠ "map-size" → k' ≠ "newgrf-count" → k' ≠ "ai-count" → k' ≠ "gs-count" →
        a' k' = a k' := by
  intro tag i data a a' h k' n1 n2 n3 n4
  by_cases t1 : tag = tagMAPS
  · simp [analyze_chunk, t1, tagMAPS, tagNGRF, tagAIPL, tagGSDT, except_pure_def,
      except_ok_bind] at h
    cases hr1 : read_uint32 data with
    | error e => rw [hr1] at h; exact absurd h (by simp [except_error_bind])
    | ok p1 =>
      rw [hr1, except_ok_bind] at h
      cases hr2 : read_uint32 p1.2 with
      | error e => rw [hr2] at h; exact absurd h (by simp [except_error_bind])
      | ok p2 =>
        rw [hr2, except_ok_bind] at h
        simp only [Except.ok.injEq] at h
        rw [← h]
        exact dictSet_get_ne a "map-size" _ k' n1
  · by_cases t2 : tag = tagNGRF
    · simp [analyze_chunk, t1, t2, tagMAPS, tagNGRF, tagAIPL, tagGSDT, except_pure_def,
        except_ok_bind] at h
      rw [except_bind_id] at h
      rw [dictIncr_get_ne _ a' "newgrf-count" k' h n2]
      by_cases hg : dictHas a "newgrf"
      · simp [hg]
      · simp [hg, dictSet_get_ne a "newgrf-count" (Value.int 0) k' n2]
    · by_cases t3 : tag = tagAIPL
      · simp [analyze_chunk, t1, t2, t3, tagMAPS, tagNGRF, tagAIPL, tagGSDT,
          except_pure_def, except_ok_bind] at h
        cases hr : read_str data with
        | error e => rw [hr] at h; exact absurd h (by simp [except_error_bind])
        | ok p =>
          rw [hr, except_ok_bind] at h
          by_cases hn : p.1 = []
          · simp [hn] at h
            rw [← h]
          · simp only [hn, if_neg hn, except_bind_id] at h
            rw [dictIncr_get_ne _ a' "ai-count" k' h n3]
            by_cases hg : dictHas a "ai"
            · simp [hg]
            · simp [hg, dictSet_get_ne a "ai-count" (Value.int 0) k' n3]
      · by_cases t4 : tag = tagGSDT
        · simp [analyze_chunk, t1, t2, t3, t4, tagMAPS, tagNGRF, tagAIPL, tagGSDT,
            except_pure_def, except_ok_bind] at h
          cases hr : read_str data with
          | error e => rw [hr] at h; exact absurd h (by simp [except_error_bind])
          | ok p =>
            rw [hr, except_ok_bind] at h
            by_cases hn : p.1 = []
            · simp [hn] at h
              rw [← h]
            · simp only [hn, if_neg hn, except_bind_id] at h
              rw [dictIncr_get_ne _ a' "gs-count" k' h n4]
              by_cases hg : dictHas a "gs"
              · simp [hg]
              · simp [hg, dictSet_get_ne a "gs-count" (Value.int 0) k' n4]
        · simp [analyze_chunk, t1, t2, t3, t4, except_pure_def, except_ok_bind] at h
          rw [← h]

/-- C9: the summary record built by `main` contains `filename`,
`savegame-version` and `compression` before any chunk is processed;
`analyze_chunk` preserves those three entries on every successfully
processed chunk (handled or unhandled tag), and a chunk whose tag is none
of MAPS, NGRF, AIPL, GSDT leaves the record entirely unchanged. -/
theorem C9_summary_keys :
    (∀ fn v (fmt : Bytes),
      initAnalysis fn v fmt "filename" =
          some (Value.text ((fn.splitOn "/").getLastD "")) ∧
        initAnalysis fn v fmt "savegame-version" = some (Value.int v) ∧
        initAnalysis fn v fmt "compression" = some (Value.bytes fmt)) ∧
    (∀ (tag : Bytes) (i : Int) (data : Bytes) (a a' : Analysis),
      analyze_chunk tag i data a = .ok a' →
      a' "filename" = a "filename" ∧ a' "savegame-version" = a "savegame-version" ∧
        a' "compression" = a "compression") ∧
    (∀ (tag : Bytes), tag ≠ tagMAPS → tag ≠ tagNGRF → tag ≠ tagAIPL → tag ≠ tagGSDT →
      ∀ (i : Int) (data : Bytes) (a : Analysis), analyze_chunk tag i data a = .ok a) := by
  refine ⟨?_, ?_, ?_⟩
  · intro fn v fmt
    exact ⟨rfl, rfl, rfl⟩
  · intro tag i data a a' h
    refine ⟨?_, ?_, ?_⟩
    · exact analyze_chunk_preserves tag i data a a' h "filename" (by decide) (by decide)
        (by decide) (by decide)
    · exact analyze_chunk_preserves tag i data a a' h "savegame-version" (by decide)
        (by decide) (by decide) (by decide)
    · exact analyze_chunk_preserves tag i data a a' h "compression" (by decide) (by decide)
        (by decide) (by decide)
  · intro tag t1 t2 t3 t4 i data a
    simp [analyze_chunk, t1, t2, t3, t4, except_pure_def, except_ok_bind]

/-- C9 witness: the preservation parts applied to a chunk with the
unhandled tag 1,2,3,4 against the empty record. -/
theorem C9_summary_keys_witness :
    analyze_chunk [1, 2, 3, 4] 0 [] (fun _ => none) = .ok (fun _ => none) ∧
    ((fun _ => none : Analysis) "filename" = (fun _ => none : Analysis) "filename" ∧
      (fun _ => none : Analysis) "savegame-version" =
        (fun _ => none : Analysis) "savegame-version" ∧
      (fun _ => none : Analysis) "compression" = (fun _ => none : Analysis) "compression") := by
  have h3 := C9_summary_keys.2.2 [1, 2, 3, 4] (by decide) (by decide) (by decide) (by decide)
    0 [] (fun _ => none)
  exact ⟨h3, C9_summary_keys.2.1 [1, 2, 3, 4] 0 [] (fun _ => none) (fun _ => none) h3⟩

theorem zlib_fill_good (dec : Bytes → Bytes)
    (hmono : ∀ xs ys, dec xs <+: dec (xs ++ ys)) (raw d : Bytes) (fuel amount : Nat)
    (z : ZLibFile) (hg : ZGood dec raw d z) :
    ZGood dec raw d (zlib_fill dec fuel amount z) := by
  induction fuel generalizing z with
  | zero => exact hg
  | succ fuel ih =>
    simp only [zlib_fill]
    by_cases h1 : z.uncompressed.length < amount
    · simp only [if_pos h1]
      by_cases h2 : (z.file.take 8192).length = 0
      · simp only [if_pos h2]; exact hg
      · simp only [if_neg h2]
        apply ih
        obtain ⟨hf, hb⟩ := hg
        constructor
        · show (z.fed ++ z.file.take 8192) ++ z.file.drop 8192 = raw
          rw [List.append_assoc, List.take_append_drop]
          exact hf
        · show d ++ (z.uncompressed ++
              (dec (z.fed ++ z.file.take 8192)).drop (dec z.fed).length) =
            dec (z.fed ++ z.file.take 8192)
          obtain ⟨t, ht⟩ := hmono z.fed (z.file.take 8192)
          rw [← ht, List.drop_left, ← List.append_assoc, hb]
    · simp only [if_neg h1]; exact hg

theorem zlib_fill_progress (dec : Bytes → Bytes) (amount fuel : Nat) (z : ZLibFile)
    (hf : z.file.length ≤ fuel) :
    amount ≤ (zlib_fill dec fuel amount z).uncompressed.length ∨
      (zlib_fill dec fuel amount z).file = [] := by
  induction fuel generalizing z with
  | zero =>
    right
    have hz : z.file = [] := List.eq_nil_of_length_eq_zero (Nat.le_zero.mp hf)
    simpa [zlib_fill] using hz
  | succ fuel ih =>
    simp only [zlib_fill]
    by_cases h1 : z.uncompressed.length < amount
    · simp only [if_pos h1]
      by_cases h2 : (z.file.take 8192).length = 0
      · simp only [if_pos h2]
        right
        rw [List.length_take] at h2
        exact List.eq_nil_of_length_eq_zero (by omega)
      · simp only [if_neg h2]
        apply ih
        simp only [List.length_drop]
        omega
    · simp only [if_neg h1]
      left
      omega

theorem zlib_read_len (dec : Bytes → Bytes) (z : ZLibFile) (n : Nat) :
    (ZLibFile.read dec z n).1.length ≤ n := by
  show ((zlib_fill dec (z.file.length + 1) n z).uncompressed.take n).length ≤ n
  rw [List.length_take]
  exact min_le_left n _

theorem zlib_read_good (dec : Bytes → Bytes)
    (hmono : ∀ xs ys, dec xs <+: dec (xs ++ ys)) (raw d : Bytes) (z : ZLibFile) (n : Nat)
    (hg : ZGood dec raw d z) :
    ZGood dec raw (d ++ (ZLibFile.read dec z n).1) (ZLibFile.read dec z n).2 := by
  obtain ⟨hf, hb⟩ := zlib_fill_good dec hmono raw d (z.file.length + 1) n z hg
  constructor
  · exact hf
  · show (d ++ (zlib_fill dec (z.file.length + 1) n z).uncompressed.take n) ++
        (zlib_fill dec (z.file.length + 1) n z).uncompressed.drop n =
      dec (zlib_fill dec (z.file.length + 1) n z).fed
    rw [List.append_assoc, List.take_append_drop]
    exact hb

theorem zlib_read_short (dec : Bytes → Bytes) (z : ZLibFile) (n : Nat)
    (h : (ZLibFile.read dec z n).1.length < n) : (ZLibFile.read dec z n).2.file = [] := by
  rcases zlib_fill_progress dec n (z.file.length + 1) z (by omega) with hp | hp
  · exfalso
    have hl : (ZLibFile.read dec z n).1.length = n := by
      show ((zlib_fill dec (z.file.length + 1) n z).uncompressed.take n).length = n
      rw [List.length_take]
      omega
    omega
  · exact hp

theorem zlib_read_exhausted (dec : Bytes → Bytes) (z : ZLibFile) (n : Nat)
    (h1 : z.file = []) (h2 : z.uncompressed = []) :
    (ZLibFile.read dec z n).1 = [] ∧ (ZLibFile.read dec z n).2 = z := by
  have hz : zlib_fill dec (z.file.length + 1) n z = z := by
    rw [h1]
    show zlib_fill dec (0 + 1) n z = z
    simp only [zlib_fill]
    by_cases hc : z.uncompressed.length < n
    · simp [if_pos hc, h1]
    · simp [if_neg hc]
  constructor
  · show ((zlib_fill dec (z.file.length + 1) n z).uncompressed.take n) = []
    rw [hz, h2, List.take_nil]
  · show ({ zlib_fill dec (z.file.length + 1) n z with
        uncompressed := (zlib_fill dec (z.file.length + 1) n z).uncompressed.drop n }
        : ZLibFile) = z
    rw [hz, h2]
    simp only [List.drop_nil]
    rw [← h2]

theorem zlib_reads_good (dec : Bytes → Bytes)
    (hmono : ∀ xs ys, dec xs <+: dec (xs ++ ys)) (raw : Bytes) :
    ∀ (ns : List Nat) (z : ZLibFile) (d : Bytes), ZGood dec raw d z →
      List.Forall₂ (fun (out : Bytes) (n : Nat) => out.length ≤ n)
        (ZLibFile.reads dec z ns).1 ns ∧
      ZGood dec raw (d ++ ((ZLibFile.reads dec z ns).1).flatten)
        (ZLibFile.reads dec z ns).2 := by
  intro ns
  induction ns with
  | nil =>
    intro z d hg
    exact ⟨List.Forall₂.nil, by simpa [ZLibFile.reads] using hg⟩
  | cons n ns ih =>
    intro z d hg
    have hstep := zlib_read_good dec hmono raw d z n hg
    obtain ⟨hall, hgood⟩ := ih (ZLibFile.read dec z n).2 (d ++ (ZLibFile.read dec z n).1) hstep
    refine ⟨List.Forall₂.cons (zlib_read_len dec z n) hall, ?_⟩
    simpa [ZLibFile.reads, List.append_assoc] using hgood

/-- C7: the OTTZ adapter's `read(n)`: each call returns at most `n` bytes,
returns fewer than `n` only when the raw source is exhausted, returns
empty (leaving the state unchanged) once source and buffer are exhausted,
pulls 8 KiB raw chunks into the buffer until it holds at least `n` bytes
or the source is exhausted, retains the undelivered buffer remainder, and
over any sequence of `read(n)` calls the concatenation of the returned
slices is a prefix of the decompressed logical stream in order.  The
decompressor object is abstracted by a map `dec` from total fed input to
total emitted output, assumed monotone (emissions only append) and empty
on no input. -/
theorem C7_zlib_read_contract :
    ∀ (dec : Bytes → Bytes), (∀ xs ys, dec xs <+: dec (xs ++ ys)) → dec [] = [] →
      (∀ (z : ZLibFile) (n : Nat), (ZLibFile.read dec z n).1.length ≤ n) ∧
      (∀ (z : ZLibFile) (n : Nat), (ZLibFile.read dec z n).1.length < n →
        (ZLibFile.read dec z n).2.file = []) ∧
      (∀ (z : ZLibFile) (n : Nat), z.file = [] → z.uncompressed = [] →
        (ZLibFile.read dec z n).1 = [] ∧ (ZLibFile.read dec z n).2 = z) ∧
      (∀ (z : ZLibFile) (n : Nat),
        n ≤ (zlib_fill dec (z.file.length + 1) n z).uncompressed.length ∨
          (zlib_fill dec (z.file.length + 1) n z).file = []) ∧
      (∀ (z : ZLibFile) (n : Nat),
        (ZLibFile.read dec z n).2.uncompressed =
          (zlib_fill dec (z.file.length + 1) n z).uncompressed.drop n) ∧
      (∀ (raw : Bytes) (ns : List Nat),
        List.Forall₂ (fun (out : Bytes) (n : Nat) => out.length ≤ n)
          (ZLibFile.reads dec (ZLibFile.init raw) ns).1 ns ∧
        ((ZLibFile.reads dec (ZLibFile.init raw) ns).1).flatten <+: dec raw) := by
  intro dec hmono hnil
  refine ⟨zlib_read_len dec, zlib_read_short dec, zlib_read_exhausted dec, ?_, ?_, ?_⟩
  · intro z n
    exact zlib_fill_progress dec n (z.file.length + 1) z (by omega)
  · intro z n
    rfl
  · intro raw ns
    have hg0 : ZGood dec raw [] (ZLibFile.init raw) := by
      constructor
      · simp [ZLibFile.init]
      · simp [ZLibFile.init, hnil]
    obtain ⟨hall, hfed, hbuf⟩ := zlib_reads_good dec hmono raw ns (ZLibFile.init raw) [] hg0
    refine ⟨hall, ?_⟩
    have h1 : ((ZLibFile.reads dec (ZLibFile.init raw) ns).1).flatten <+:
        dec (ZLibFile.reads dec (ZLibFile.init raw) ns).2.fed := by
      refine ⟨(ZLibFile.reads dec (ZLibFile.init raw) ns).2.uncompressed, ?_⟩
      simpa using hbuf
    have h2 : dec (ZLibFile.reads dec (ZLibFile.init raw) ns).2.fed <+: dec raw := by
      have := hmono (ZLibFile.reads dec (ZLibFile.init raw) ns).2.fed
        (ZLibFile.reads dec (ZLibFile.init raw) ns).2.file
      rwa [hfed] at this
    exact h1.trans h2

/-- C7 witness: the contract applied to the identity decompressor over the
raw source 1,2,3 with the call sequence 2,2. -/
theorem C7_zlib_read_contract_witness :
    (ZLibFile.read id (ZLibFile.init [1, 2, 3]) 2).1.length ≤ 2 ∧
    (((ZLibFile.reads id (ZLibFile.init [1, 2, 3]) [2, 2]).1).flatten <+: id [1, 2, 3]) := by
  have h := C7_zlib_read_contract id (fun xs ys => ⟨ys, rfl⟩) rfl
  exact ⟨h.1 (ZLibFile.init [1, 2, 3]) 2, (h.2.2.2.2.2 [1, 2, 3] [2, 2]).2⟩
